import Mathlib

/-!
Shallow embedding of `db-shm-manager` (`src/lib.rs`, `src/errors.rs`):
a double-buffered shared-memory channel `DoubleBufferedSharedMemory<T>`.

Modelling conventions:
* Bytes are `Nat`, a memory region is a `List Nat`.
* The external codec (`bincode` + `ndarray` serde, out of scope for the
  library itself) is an abstract `Codec α`: `serialize`, `deserialize`,
  the element count `len` (Rust `ArrayD::len()`), the element width
  `dtypeSize` (Rust `mem::size_of::<T>()`) and the zero-array constructor
  `zeros` (Rust `ArrayD::<T>::zeros`).
* The external OS allocator (`ShmemConf::new().size(..).os_id(..).create()`)
  is an abstract function `String → Nat → Except String (List Nat)`.
* Blocking on a condition variable in this sequential semantics is `none`:
  `write`/`read` return `none` exactly when the corresponding
  `acquire_*_permit` would block.
* `usize` subtraction underflow (a Rust arithmetic panic) is `none` in
  `calc_extra_size`/`new`.
-/

namespace DbShm

/-- Error type `DbShmError` from `src/errors.rs`: each variant carries the expected and
actual sizes, the two serde variants also carry the codec's message. -/
inductive DbShmError where
  | InvalidSize (expected actual : Nat)
  | SerializationError (msg : String) (expected actual : Nat)
  | DeserializationError (msg : String) (expected actual : Nat)
deriving DecidableEq, Repr

/-- The external serialization codec for arrays of element type `α`
(`bincode` over `ndarray`, out of the library's scope). -/
structure Codec (α : Type) where
  serialize : α → Except String (List Nat)
  deserialize : List Nat → Except String α
  len : α → Nat
  dtypeSize : Nat
  zeros : Nat × Nat × Nat → α

/-- State of a `DoubleBufferedSharedMemory` value: the two shared-memory
buffers, the active buffer index, the fixed per-buffer size, and the two
permit gates (`read_permits` is the counter inside the read `Mutex`,
`write_permit` the flag inside the write `Mutex`). -/
structure Channel where
  buffers : List (List Nat)
  active_index : Nat
  size : Nat
  read_permits : Nat
  write_permit : Bool
deriving DecidableEq, Repr

/-- Quantity `base_size` as computed in `new` (lib.rs line 57):
`shape.0 * shape.1 * shape.2 * mem::size_of::<T>()`. -/
def base_size {α : Type} (c : Codec α) (shape : Nat × Nat × Nat) : Nat :=
  shape.1 * shape.2.1 * shape.2.2 * c.dtypeSize

/-- Function `calc_extra_size` (lib.rs lines 82-90): serialize a zero-filled sample
array and subtract `base_size` from its length. The subtraction is on
`usize`; when the serialized sample is shorter than `base_size` it
underflows, a Rust arithmetic panic, modelled as `none`. -/
def calc_extra_size {α : Type} (c : Codec α) (base_sz : Nat)
    (shape : Nat × Nat × Nat) : Option (Except DbShmError Nat) :=
  let sample_data := c.zeros shape
  match c.serialize sample_data with
  | Except.error e =>
      some (Except.error (DbShmError.SerializationError e base_sz (c.len sample_data)))
  | Except.ok serialized_sample =>
      if serialized_sample.length < base_sz then
        none
      else
        some (Except.ok (serialized_sample.length - base_sz))

/-- Segment name for index `i`: `format!("{}_{}", name_base, i)`
(lib.rs line 64). -/
def segName (name_base : String) (i : Nat) : String :=
  name_base ++ "_" ++ toString i

/-- The allocation loop of `new` (lib.rs lines 63-70): for each index in the
list, allocate a region named `segName name_base i` of `size` bytes; the
first allocator error is propagated (`?`), with no retry. -/
def allocBuffers (alloc : String → Nat → Except String (List Nat))
    (name_base : String) (size : Nat) :
    List Nat → Except String (List (List Nat))
  | [] => Except.ok []
  | i :: rest =>
      match alloc (segName name_base i) size with
      | Except.error e => Except.error e
      | Except.ok shm =>
          match allocBuffers alloc name_base size rest with
          | Except.error e => Except.error e
          | Except.ok bufs => Except.ok (shm :: bufs)

/-- Error type of `new`, which returns `Box<dyn Error>`: either a
shared-memory allocation error or a `DbShmError`. -/
inductive NewError where
  | segment (e : String)
  | db (e : DbShmError)
deriving DecidableEq, Repr

/-- Function `new` (lib.rs lines 55-79): compute `base_size` and `extra_size`, then
allocate the two buffers for indices `0..2`; the fresh channel starts with
`active_index = 0`, one read permit and an available write permit.
`none` models the arithmetic panic propagating out of `calc_extra_size`. -/
def new {α : Type} (c : Codec α)
    (alloc : String → Nat → Except String (List Nat))
    (name_base : String) (shape : Nat × Nat × Nat) :
    Option (Except NewError Channel) :=
  let base_sz := base_size c shape
  match calc_extra_size c base_sz shape with
  | none => none
  | some (Except.error e) => some (Except.error (NewError.db e))
  | some (Except.ok extra_size) =>
      let size := base_sz + extra_size
      match allocBuffers alloc name_base size [0, 1] with
      | Except.error e => some (Except.error (NewError.segment e))
      | Except.ok buffers =>
          some (Except.ok
            { buffers := buffers
              active_index := 0
              size := size
              read_permits := 1
              write_permit := true })

/-- Function `write` (lib.rs lines 146-169). `acquire_write_permit` blocks while the
flag is `false` (modelled as `none`), then sets it to `false`. A codec
serialization failure returns early through `?` WITHOUT releasing the
permit. A size mismatch releases the permit and returns `InvalidSize`.
Otherwise the serialized bytes are copied into the active buffer, the
active index flips (`1 - active_index`), and the permit is released. -/
def write {α : Type} (c : Codec α) (s : Channel) (array : α) :
    Option (Except DbShmError Unit × Channel) :=
  if s.write_permit then
    let s1 : Channel := { s with write_permit := false }
    match c.serialize array with
    | Except.error e =>
        some (Except.error (DbShmError.SerializationError e s1.size (c.len array)), s1)
    | Except.ok data =>
        if data.length ≠ s1.size then
          some (Except.error (DbShmError.InvalidSize s1.size data.length),
                { s1 with write_permit := true })
        else
          let s2 : Channel := { s1 with buffers := s1.buffers.set s1.active_index data }
          let s3 : Channel := { s2 with active_index := 1 - s2.active_index }
          some (Except.ok (), { s3 with write_permit := true })
  else none

/-- Function `read` (lib.rs lines 180-196). `acquire_read_permit` blocks while the
counter is `0` (modelled as `none`), then decrements it. The stable buffer
is `buffers[1 - active_index]`; `self.size` bytes are viewed from it. A
codec deserialization failure returns early through `?` WITHOUT restoring
the counter, and wraps the message in the `SerializationError` variant
(as the source does on line 193). On success the counter is restored and
the deserialized array returned. -/
def read {α : Type} (c : Codec α) (s : Channel) :
    Option (Except DbShmError α × Channel) :=
  if s.read_permits = 0 then none
  else
    let s1 : Channel := { s with read_permits := s.read_permits - 1 }
    let read_index := 1 - s1.active_index
    let data := (s1.buffers.getD read_index []).take s1.size
    match c.deserialize data with
    | Except.error e =>
        some (Except.error (DbShmError.SerializationError e s1.size data.length), s1)
    | Except.ok deserialized_data =>
        some (Except.ok deserialized_data, { s1 with read_permits := s1.read_permits + 1 })

/-- Function `get_memory_size` (lib.rs lines 216-218). -/
def get_memory_size (s : Channel) : Nat :=
  s.size

/-- One channel operation, for stating properties over arbitrary
sequences of calls. -/
inductive Op (α : Type) where
  | write (a : α)
  | read

/-- The state after one operation: a call that returns keeps its resulting
state, a call that would block leaves the state unchanged. -/
def step {α : Type} (c : Codec α) (s : Channel) : Op α → Channel
  | Op.write a =>
      match write c s a with
      | some (_, s') => s'
      | none => s
  | Op.read =>
      match read c s with
      | some (_, s') => s'
      | none => s

/-- The state after a sequence of operations. -/
def runOps {α : Type} (c : Codec α) (ops : List (Op α)) (s : Channel) : Channel :=
  ops.foldl (step c) s

end DbShm

namespace DbShm.Readers

/-!
Interleaving model for the read-permit gate (`acquire_read_permit`,
lib.rs lines 110-117, and `release_read_permit`, lines 120-125), used for
the read-concurrency bound. Each reader thread runs `read()`:
acquire the permit, execute the codec (deserialization) step, then either
release the permit and return (success path) or return early on a codec
failure without releasing (the `?` on line 193).
-/

/-- Phase of one reader thread inside `read()`. -/
inductive ReaderPhase where
  | idle
  | codec
  | done
  | failed
deriving DecidableEq, Repr

/-- Global state: the permit counter plus the multiset of thread phases. -/
structure ReadSystem where
  read_permits : Nat
  threads : Multiset ReaderPhase

/-- Interleaving steps. `acquire` needs a nonzero counter (the `while
*permit == 0` wait loop of `acquire_read_permit`) and decrements it;
`release` increments it and completes the thread; `fail` completes the
thread on the deserialization-error path, which never releases. -/
inductive ReadStep : ReadSystem → ReadSystem → Prop where
  | acquire (p : Nat) (rest : Multiset ReaderPhase) (hp : p ≠ 0) :
      ReadStep ⟨p, ReaderPhase.idle ::ₘ rest⟩ ⟨p - 1, ReaderPhase.codec ::ₘ rest⟩
  | release (p : Nat) (rest : Multiset ReaderPhase) :
      ReadStep ⟨p, ReaderPhase.codec ::ₘ rest⟩ ⟨p + 1, ReaderPhase.done ::ₘ rest⟩
  | fail (p : Nat) (rest : Multiset ReaderPhase) :
      ReadStep ⟨p, ReaderPhase.codec ::ₘ rest⟩ ⟨p, ReaderPhase.failed ::ₘ rest⟩

/-- Number of threads currently executing their codec step. -/
def countCodec (ts : Multiset ReaderPhase) : Nat :=
  Multiset.count ReaderPhase.codec ts

/-- Number of threads that returned through the error path. -/
def countFailed (ts : Multiset ReaderPhase) : Nat :=
  Multiset.count ReaderPhase.failed ts

/-- Initial state: capacity `C` in the counter (the source hard-codes
`Mutex::new(1)`), `n` reader threads about to call `read()`. -/
def initSystem (C n : Nat) : ReadSystem :=
  ⟨C, Multiset.replicate n ReaderPhase.idle⟩

/-- States reachable by interleaving reader threads. -/
def Reachable (C n : Nat) (s : ReadSystem) : Prop :=
  Relation.ReflTransGen ReadStep (initSystem C n) s

end DbShm.Readers

namespace DbShm

/-- Concrete codec used to instantiate theorems: arrays are plain byte
lists serialized as themselves, element width 1. -/
def byteCodec : Codec (List Nat) where
  serialize a := Except.ok a
  deserialize d := Except.ok d
  len a := a.length
  dtypeSize := 1
  zeros shape := List.replicate (shape.1 * shape.2.1 * shape.2.2) 0

/-- Concrete codec whose element width exceeds its per-element encoding,
so a zero sample serializes to fewer bytes than `base_size`. -/
def wideCodec : Codec (List Nat) where
  serialize a := Except.ok a
  deserialize d := Except.ok d
  len a := a.length
  dtypeSize := 2
  zeros shape := List.replicate (shape.1 * shape.2.1 * shape.2.2) 0

/-- Concrete codec whose deserialization always fails. -/
def failCodec : Codec (List Nat) where
  serialize a := Except.ok a
  deserialize _ := Except.error ("invalid bytes")
  len a := a.length
  dtypeSize := 1
  zeros shape := List.replicate (shape.1 * shape.2.1 * shape.2.2) 0

/-- Concrete allocator that always succeeds with a zero-filled region. -/
def zeroAlloc : String → Nat → Except String (List Nat) :=
  fun _ size => Except.ok (List.replicate size 0)

/-- A freshly constructed channel for shape `(2,2,1)` and width 1 under
`byteCodec`: size 4, both buffers zeroed, active index 0. -/
def testChannel : Channel :=
  { buffers := [[0, 0, 0, 0], [0, 0, 0, 0]]
    active_index := 0
    size := 4
    read_permits := 1
    write_permit := true }

/-- Claim C1: for every array whose serialized length equals the channel's
fixed size, a successful `write` followed immediately by `read` (no
intervening write) returns the array back: `write` copies the serialized
bytes into the active buffer and flips the index, and `read` deserializes
the buffer at `1 - active_index`. -/
theorem write_read_roundtrip {α : Type} (c : Codec α) (s : Channel) (a : α)
    (data : List Nat)
    (hw : s.write_permit = true)
    (hr : s.read_permits ≠ 0)
    (hai : s.active_index = 0 ∨ s.active_index = 1)
    (hbuf : s.buffers.length = 2)
    (hser : c.serialize a = Except.ok data)
    (hlen : data.length = s.size)
    (hrt : c.deserialize data = Except.ok a) :
    ∃ s1, write c s a = some (Except.ok (), s1) ∧
      ∃ s2, read c s1 = some (Except.ok a, s2) := by
  obtain ⟨bufs, ai, sz, rp, wp⟩ := s
  simp only at hw hr hai hbuf hser hlen hrt
  subst hw
  obtain ⟨b0, b1, rfl⟩ := List.length_eq_two.mp hbuf
  rcases hai with rfl | rfl
  · refine ⟨⟨[data, b1], 1, sz, rp, true⟩, ?_, ?_⟩
    · simp [write, hser, hlen]
    · refine ⟨⟨[data, b1], 1, sz, rp - 1 + 1, true⟩, ?_⟩
      simp [read, hr, List.getD]
      rw [← hlen, List.take_length, hrt]
  · refine ⟨⟨[b0, data], 0, sz, rp, true⟩, ?_, ?_⟩
    · simp [write, hser, hlen]
    · refine ⟨⟨[b0, data], 0, sz, rp - 1 + 1, true⟩, ?_⟩
      simp [read, hr, List.getD]
      rw [← hlen, List.take_length, hrt]

/-- Witness for C1 at a concrete channel and array. -/
theorem write_read_roundtrip_witness :
    ∃ s1, write byteCodec testChannel [1, 2, 3, 4] = some (Except.ok (), s1) ∧
      ∃ s2, read byteCodec s1 = some (Except.ok [1, 2, 3, 4], s2) :=
  write_read_roundtrip byteCodec testChannel [1, 2, 3, 4] [1, 2, 3, 4]
    rfl (by decide) (Or.inl rfl) rfl rfl rfl rfl

end DbShm

namespace DbShm

/-- Concrete codec that fails to serialize the empty array and serializes
any other byte list as itself. -/
def mixedCodec : Codec (List Nat) where
  serialize a := if a = [] then Except.error ("encode failed") else Except.ok a
  deserialize d := Except.ok d
  len a := a.length
  dtypeSize := 1
  zeros shape := List.replicate (shape.1 * shape.2.1 * shape.2.2) 0

/-- Claim C2: a `write` whose serialized length differs from the channel's
size returns `InvalidSize (expected = size, actual = serialized length)`,
releases the write permit, and leaves the whole channel state unchanged
(the resulting state is the original one), so a subsequent `read` behaves
exactly as before the failed write. -/
theorem write_size_mismatch {α : Type} (c : Codec α) (s : Channel) (a : α)
    (data : List Nat)
    (hw : s.write_permit = true)
    (hser : c.serialize a = Except.ok data)
    (hne : data.length ≠ s.size) :
    ∃ s', write c s a
        = some (Except.error (DbShmError.InvalidSize s.size data.length), s')
      ∧ s' = s ∧ read c s' = read c s := by
  obtain ⟨bufs, ai, sz, rp, wp⟩ := s
  simp only at hw hser hne ⊢
  subst hw
  refine ⟨⟨bufs, ai, sz, rp, true⟩, ?_, rfl, rfl⟩
  simp [write, hser, hne]

/-- Witness for C2: writing 3 serialized bytes into a size-4 channel. -/
theorem write_size_mismatch_witness :
    ∃ s', write byteCodec testChannel [1, 2, 3]
        = some (Except.error (DbShmError.InvalidSize testChannel.size
            ([1, 2, 3] : List Nat).length), s')
      ∧ s' = testChannel ∧ read byteCodec s' = read byteCodec testChannel :=
  write_size_mismatch byteCodec testChannel [1, 2, 3] [1, 2, 3]
    rfl rfl (by decide)

/-- Claim C9 (implicit): when serialization fails inside `write`, the
Serialization error is returned WITHOUT releasing the write permit — the
flag stays `false` — unlike the size-mismatch path, which releases it
before returning. -/
theorem write_serialize_error_keeps_permit {α : Type} (c : Codec α)
    (s : Channel) (a : α) (msg : String)
    (hw : s.write_permit = true)
    (hser : c.serialize a = Except.error msg) :
    (∃ s', write c s a
        = some (Except.error (DbShmError.SerializationError msg s.size (c.len a)), s')
      ∧ s'.write_permit = false)
    ∧ (∀ (a2 : α) (data : List Nat), c.serialize a2 = Except.ok data →
        data.length ≠ s.size →
        ∃ s', write c s a2
            = some (Except.error (DbShmError.InvalidSize s.size data.length), s')
          ∧ s'.write_permit = true) := by
  constructor
  · exact ⟨{ s with write_permit := false }, by simp [write, hw, hser], rfl⟩
  · intro a2 data hser2 hne
    exact ⟨{ s with write_permit := true }, by simp [write, hw, hser2, hne], rfl⟩

/-- Witness for C9: `mixedCodec` fails to serialize `[]`; the permit is
left held. -/
theorem write_serialize_error_keeps_permit_witness :
    (∃ s', write mixedCodec testChannel []
        = some (Except.error (DbShmError.SerializationError ("encode failed")
            testChannel.size (mixedCodec.len [])), s')
      ∧ s'.write_permit = false)
    ∧ (∀ (a2 : List Nat) (data : List Nat),
        mixedCodec.serialize a2 = Except.ok data →
        data.length ≠ testChannel.size →
        ∃ s', write mixedCodec testChannel a2
            = some (Except.error (DbShmError.InvalidSize testChannel.size data.length), s')
          ∧ s'.write_permit = true) :=
  write_serialize_error_keeps_permit mixedCodec testChannel [] ("encode failed")
    rfl rfl

/-- Claim C3 (code evidence): at a channel whose stable-buffer bytes fail to
deserialize, `read` returns the `SerializationError` variant — not
`DeserializationError` — and returns with the read-permit counter still
decremented: the `?` on lib.rs line 193 fires before
`release_read_permit` runs. -/
theorem read_deserialize_error_behavior :
    read failCodec testChannel
      = some (Except.error (DbShmError.SerializationError ("invalid bytes") 4 4),
          { testChannel with read_permits := 0 })
    ∧ ({ testChannel with read_permits := 0 } : Channel).read_permits
        ≠ testChannel.read_permits := by
  constructor
  · rfl
  · decide

end DbShm

namespace DbShm

/-- Helper: any returning `write` call leaves the `size` field unchanged. -/
theorem write_preserves_size {α : Type} (c : Codec α) (s : Channel) (a : α)
    (r : Except DbShmError Unit) (s' : Channel)
    (h : write c s a = some (r, s')) : s'.size = s.size := by
  simp only [write] at h
  split at h
  · split at h
    · simp only [Option.some.injEq, Prod.mk.injEq] at h
      obtain ⟨-, rfl⟩ := h; rfl
    · split at h
      · simp only [Option.some.injEq, Prod.mk.injEq] at h
        obtain ⟨-, rfl⟩ := h; rfl
      · simp only [Option.some.injEq, Prod.mk.injEq] at h
        obtain ⟨-, rfl⟩ := h; rfl
  · cases h

/-- Helper: any returning `read` call leaves `active_index`, `size`,
`buffers` and `write_permit` unchanged. -/
theorem read_preserves_fields {α : Type} (c : Codec α) (s : Channel)
    (r : Except DbShmError α) (s' : Channel)
    (h : read c s = some (r, s')) :
    s'.active_index = s.active_index ∧ s'.size = s.size
      ∧ s'.buffers = s.buffers ∧ s'.write_permit = s.write_permit := by
  simp only [read] at h
  split at h
  · cases h
  · split at h
    · simp only [Option.some.injEq, Prod.mk.injEq] at h
      obtain ⟨-, rfl⟩ := h
      exact ⟨rfl, rfl, rfl, rfl⟩
    · simp only [Option.some.injEq, Prod.mk.injEq] at h
      obtain ⟨-, rfl⟩ := h
      exact ⟨rfl, rfl, rfl, rfl⟩

/-- Helper: a successful `write` flips the active index to
`1 - active_index`; a failed `write` leaves it unchanged. -/
theorem write_active_index {α : Type} (c : Codec α) (s : Channel) (a : α) :
    (∀ s', write c s a = some (Except.ok (), s') →
       s'.active_index = 1 - s.active_index)
    ∧ (∀ e s', write c s a = some (Except.error e, s') →
       s'.active_index = s.active_index) := by
  constructor
  · intro s' h
    simp only [write] at h
    split at h
    · split at h
      · simp only [Option.some.injEq, Prod.mk.injEq] at h
        exact absurd h.1 (by simp)
      · split at h
        · simp only [Option.some.injEq, Prod.mk.injEq] at h
          exact absurd h.1 (by simp)
        · simp only [Option.some.injEq, Prod.mk.injEq] at h
          obtain ⟨-, rfl⟩ := h; rfl
    · cases h
  · intro e s' h
    simp only [write] at h
    split at h
    · split at h
      · simp only [Option.some.injEq, Prod.mk.injEq] at h
        obtain ⟨-, rfl⟩ := h; rfl
      · split at h
        · simp only [Option.some.injEq, Prod.mk.injEq] at h
          obtain ⟨-, rfl⟩ := h; rfl
        · simp only [Option.some.injEq, Prod.mk.injEq] at h
          exact absurd h.1 (by simp)
    · cases h

/-- Helper: one `step` leaves the `size` field unchanged. -/
theorem step_preserves_size {α : Type} (c : Codec α) (s : Channel) (o : Op α) :
    (step c s o).size = s.size := by
  cases o with
  | write a =>
      rcases hw : write c s a with - | ⟨r, s'⟩
      · simp [step, hw]
      · simp only [step, hw]
        exact write_preserves_size c s a r s' hw
  | read =>
      rcases hr : read c s with - | ⟨r, s'⟩
      · simp [step, hr]
      · simp only [step, hr]
        exact (read_preserves_fields c s r s' hr).2.1

/-- Helper: a sequence of operations leaves the `size` field unchanged. -/
theorem runOps_preserves_size {α : Type} (c : Codec α) (ops : List (Op α))
    (s : Channel) : (runOps c ops s).size = s.size := by
  induction ops generalizing s with
  | nil => rfl
  | cons o rest ih =>
      show (runOps c rest (step c s o)).size = s.size
      exact (ih (step c s o)).trans (step_preserves_size c s o)

/-- Helper: `calc_extra_size` when the sample serializes to at least
`base_sz` bytes. -/
theorem calc_extra_size_of_ok {α : Type} (c : Codec α) (base_sz : Nat)
    (shape : Nat × Nat × Nat) (sample : List Nat)
    (hser : c.serialize (c.zeros shape) = Except.ok sample)
    (hge : base_sz ≤ sample.length) :
    calc_extra_size c base_sz shape
      = some (Except.ok (sample.length - base_sz)) := by
  simp only [calc_extra_size]
  rw [hser]
  simp [Nat.not_lt.mpr hge]

/-- Claim C4: for a channel built by `new` with a given shape and element
width, `get_memory_size` returns the same value after any sequence of
writes and reads, and that value is `base_size + extra_size`, where
`base_size = d0 * d1 * d2 * w` and `extra_size` is the sample
serialization's length minus `base_size`, computed once at construction. -/
theorem get_memory_size_constant {α : Type} (c : Codec α)
    (alloc : String → Nat → Except String (List Nat))
    (name_base : String) (shape : Nat × Nat × Nat)
    (sample : List Nat) (ch : Channel)
    (hser : c.serialize (c.zeros shape) = Except.ok sample)
    (hge : base_size c shape ≤ sample.length)
    (hnew : new c alloc name_base shape = some (Except.ok ch))
    (ops : List (Op α)) :
    get_memory_size (runOps c ops ch)
      = base_size c shape + (sample.length - base_size c shape) := by
  have hc := calc_extra_size_of_ok c (base_size c shape) shape sample hser hge
  simp only [new] at hnew
  rw [hc] at hnew
  dsimp only at hnew
  rcases hab : allocBuffers alloc name_base
      (base_size c shape + (sample.length - base_size c shape)) [0, 1]
    with e | bufs
  · rw [hab] at hnew; cases hnew
  · rw [hab] at hnew
    simp only [Option.some.injEq, Except.ok.injEq] at hnew
    subst hnew
    rw [get_memory_size, runOps_preserves_size]

/-- Witness for C4 at shape `(2,2,1)`, width 1 and a three-operation run. -/
theorem get_memory_size_constant_witness :
    get_memory_size (runOps byteCodec
        [Op.read, Op.write [9, 9, 9, 9], Op.write [1, 2]] testChannel)
      = base_size byteCodec (2, 2, 1)
        + ((List.replicate 4 (0 : Nat)).length - base_size byteCodec (2, 2, 1)) :=
  get_memory_size_constant byteCodec zeroAlloc ("ch4") (2, 2, 1)
    (List.replicate 4 0) testChannel rfl (by decide) rfl
    [Op.read, Op.write [9, 9, 9, 9], Op.write [1, 2]]

end DbShm

namespace DbShm

/-- Claim C5: from a fresh channel (active index 0), write #1 stores its
serialized bytes in segment 0 and sets the active index to 1; `read` then
returns segment 0's content; write #2 stores its bytes in segment 1 and
sets the active index back to 0, after which `read` returns segment 1's
content. -/
theorem buffer_alternation {α : Type} (c : Codec α) (s : Channel)
    (a1 a2 : α) (d1 d2 b0 b1 : List Nat)
    (hbuf : s.buffers = [b0, b1])
    (hai : s.active_index = 0)
    (hrp : s.read_permits = 1)
    (hw : s.write_permit = true)
    (hser1 : c.serialize a1 = Except.ok d1) (hlen1 : d1.length = s.size)
    (hrt1 : c.deserialize d1 = Except.ok a1)
    (hser2 : c.serialize a2 = Except.ok d2) (hlen2 : d2.length = s.size)
    (hrt2 : c.deserialize d2 = Except.ok a2) :
    ∃ s1, write c s a1 = some (Except.ok (), s1)
      ∧ s1.buffers = [d1, b1] ∧ s1.active_index = 1
      ∧ read c s1 = some (Except.ok a1, s1)
      ∧ ∃ s2, write c s1 a2 = some (Except.ok (), s2)
        ∧ s2.buffers = [d1, d2] ∧ s2.active_index = 0
        ∧ read c s2 = some (Except.ok a2, s2) := by
  obtain ⟨bufs, ai, sz, rp, wp⟩ := s
  simp only at hbuf hai hrp hw hlen1 hlen2
  subst hbuf hai hrp hw
  subst hlen1
  refine ⟨⟨[d1, b1], 1, d1.length, 1, true⟩, ?_, rfl, rfl, ?_, ?_⟩
  · simp [write, hser1]
  · simp [read, List.getD, List.take_length, hrt1]
  · refine ⟨⟨[d1, d2], 0, d1.length, 1, true⟩, ?_, rfl, rfl, ?_⟩
    · simp [write, hser2, hlen2]
    · simp only [read, List.getD]
      norm_num
      rw [← hlen2, List.take_length, hrt2]

/-- Witness for C5 at a concrete fresh channel and two concrete arrays. -/
theorem buffer_alternation_witness :
    ∃ s1, write byteCodec testChannel [1, 2, 3, 4] = some (Except.ok (), s1)
      ∧ s1.buffers = [[1, 2, 3, 4], [0, 0, 0, 0]] ∧ s1.active_index = 1
      ∧ read byteCodec s1 = some (Except.ok [1, 2, 3, 4], s1)
      ∧ ∃ s2, write byteCodec s1 [5, 6, 7, 8] = some (Except.ok (), s2)
        ∧ s2.buffers = [[1, 2, 3, 4], [5, 6, 7, 8]] ∧ s2.active_index = 0
        ∧ read byteCodec s2 = some (Except.ok [5, 6, 7, 8], s2) :=
  buffer_alternation byteCodec testChannel [1, 2, 3, 4] [5, 6, 7, 8]
    [1, 2, 3, 4] [5, 6, 7, 8] [0, 0, 0, 0] [0, 0, 0, 0]
    rfl rfl rfl rfl rfl rfl rfl rfl rfl rfl

/-- Helper: one `step` keeps the active index in `{0, 1}`. -/
theorem step_active_index_mem {α : Type} (c : Codec α) (s : Channel)
    (o : Op α) (h : s.active_index = 0 ∨ s.active_index = 1) :
    (step c s o).active_index = 0 ∨ (step c s o).active_index = 1 := by
  cases o with
  | write a =>
      rcases hw : write c s a with - | ⟨r, s'⟩
      · simpa [step, hw] using h
      · simp only [step, hw]
        cases r with
        | ok u =>
            cases u
            rw [(write_active_index c s a).1 s' hw]
            rcases h with h | h <;> rw [h] <;> simp
        | error e =>
            rw [(write_active_index c s a).2 e s' hw]
            exact h
  | read =>
      rcases hr : read c s with - | ⟨r, s'⟩
      · simpa [step, hr] using h
      · simp only [step, hr]
        rw [(read_preserves_fields c s r s' hr).1]
        exact h

/-- Helper: the active index of any state reachable by a sequence of
operations from a state with active index in `{0, 1}` stays in `{0, 1}`. -/
theorem runOps_active_index_mem {α : Type} (c : Codec α) (ops : List (Op α))
    (s : Channel) (h : s.active_index = 0 ∨ s.active_index = 1) :
    (runOps c ops s).active_index = 0 ∨ (runOps c ops s).active_index = 1 := by
  induction ops generalizing s with
  | nil => exact h
  | cons o rest ih =>
      exact ih (step c s o) (step_active_index_mem c s o h)

/-- Claim C6: every state reachable from a `new` channel by any sequence of
operations has active index in `{0, 1}`; a successful `write` flips the
active index (to `1 - active_index`), a failed `write` leaves it
unchanged, and any `read` leaves `active_index`, `size` and both buffers
exactly as they were. -/
theorem channel_invariants {α : Type} (c : Codec α)
    (alloc : String → Nat → Except String (List Nat))
    (name_base : String) (shape : Nat × Nat × Nat) :
    (∀ ch ops, new c alloc name_base shape = some (Except.ok ch) →
       (runOps c ops ch).active_index = 0 ∨ (runOps c ops ch).active_index = 1)
    ∧ (∀ s a s', write c s a = some (Except.ok (), s') →
       s'.active_index = 1 - s.active_index)
    ∧ (∀ s a e s', write c s a = some (Except.error e, s') →
       s'.active_index = s.active_index)
    ∧ (∀ s (r : Except DbShmError α) s', read c s = some (r, s') →
       s'.active_index = s.active_index ∧ s'.size = s.size
         ∧ s'.buffers = s.buffers) := by
  refine ⟨?_, ?_, ?_, ?_⟩
  · intro ch ops hnew
    refine runOps_active_index_mem c ops ch (Or.inl ?_)
    simp only [new] at hnew
    rcases hc : calc_extra_size c (base_size c shape) shape with - | r
    · rw [hc] at hnew; cases hnew
    · rw [hc] at hnew
      rcases r with e | extra
      · cases hnew
      · dsimp only at hnew
        rcases hab : allocBuffers alloc name_base (base_size c shape + extra) [0, 1]
          with e | bufs
        · rw [hab] at hnew; cases hnew
        · rw [hab] at hnew
          simp only [Option.some.injEq, Except.ok.injEq] at hnew
          subst hnew
          rfl
  · intro s a s' h
    exact (write_active_index c s a).1 s' h
  · intro s a e s' h
    exact (write_active_index c s a).2 e s' h
  · intro s r s' h
    obtain ⟨h1, h2, h3, -⟩ := read_preserves_fields c s r s' h
    exact ⟨h1, h2, h3⟩

end DbShm

namespace DbShm

/-- Witness for C6: a two-operation run from a fresh channel, and one
concrete successful write flipping the index from 0 to 1. -/
theorem channel_invariants_witness :
    ((runOps byteCodec [Op.write [1, 2, 3, 4], Op.read] testChannel).active_index = 0
      ∨ (runOps byteCodec [Op.write [1, 2, 3, 4], Op.read] testChannel).active_index = 1)
    ∧ ({ buffers := [[1, 2, 3, 4], [0, 0, 0, 0]], active_index := 1, size := 4,
         read_permits := 1, write_permit := true } : Channel).active_index
        = 1 - testChannel.active_index := by
  constructor
  · exact (channel_invariants byteCodec zeroAlloc ("ch6") (2, 2, 1)).1 testChannel
      [Op.write [1, 2, 3, 4], Op.read] rfl
  · exact (channel_invariants byteCodec zeroAlloc ("ch6") (2, 2, 1)).2.1 testChannel
      [1, 2, 3, 4] _ rfl

/-- Claim C7: `new` issues exactly two allocation requests, for regions
named `name_base ++ "_0"` and `name_base ++ "_1"`, each of the computed
size; on success the channel's buffers are exactly the two allocated
regions in order; either allocation error is propagated unchanged with no
retry; and the result depends on the allocator only through those two
requests. -/
theorem new_allocates_two_segments {α : Type} (c : Codec α)
    (alloc : String → Nat → Except String (List Nat))
    (name_base : String) (shape : Nat × Nat × Nat) (extra : Nat)
    (hextra : calc_extra_size c (base_size c shape) shape
      = some (Except.ok extra)) :
    (∀ r0 r1, alloc (segName name_base 0) (base_size c shape + extra) = Except.ok r0 →
       alloc (segName name_base 1) (base_size c shape + extra) = Except.ok r1 →
       new c alloc name_base shape
         = some (Except.ok
             { buffers := [r0, r1], active_index := 0,
               size := base_size c shape + extra,
               read_permits := 1, write_permit := true }))
    ∧ (∀ e, alloc (segName name_base 0) (base_size c shape + extra) = Except.error e →
       new c alloc name_base shape = some (Except.error (NewError.segment e)))
    ∧ (∀ r0 e, alloc (segName name_base 0) (base_size c shape + extra) = Except.ok r0 →
       alloc (segName name_base 1) (base_size c shape + extra) = Except.error e →
       new c alloc name_base shape = some (Except.error (NewError.segment e)))
    ∧ (∀ alloc2 : String → Nat → Except String (List Nat),
       alloc2 (segName name_base 0) (base_size c shape + extra)
           = alloc (segName name_base 0) (base_size c shape + extra) →
       alloc2 (segName name_base 1) (base_size c shape + extra)
           = alloc (segName name_base 1) (base_size c shape + extra) →
       new c alloc2 name_base shape = new c alloc name_base shape)
    ∧ segName name_base 0 = name_base ++ "_0"
    ∧ segName name_base 1 = name_base ++ "_1" := by
  refine ⟨?_, ?_, ?_, ?_, ?_, ?_⟩
  · intro r0 r1 h0 h1
    simp only [new, hextra]
    simp [allocBuffers, h0, h1]
  · intro e h0
    simp only [new, hextra]
    simp [allocBuffers, h0]
  · intro r0 e h0 h1
    simp only [new, hextra]
    simp [allocBuffers, h0, h1]
  · intro alloc2 h0 h1
    simp only [new, hextra]
    simp only [allocBuffers, h0, h1]
  · rw [segName, String.append_assoc]
    congr 1
  · rw [segName, String.append_assoc]
    congr 1

/-- Witness for C7: `zeroAlloc` succeeds on both names with zero-filled
regions of size 4. -/
theorem new_allocates_two_segments_witness :
    new byteCodec zeroAlloc ("buf") (2, 2, 1)
      = some (Except.ok
          { buffers := [List.replicate 4 0, List.replicate 4 0],
            active_index := 0,
            size := base_size byteCodec (2, 2, 1) + 0,
            read_permits := 1, write_permit := true }) :=
  (new_allocates_two_segments byteCodec zeroAlloc ("buf") (2, 2, 1) 0 rfl).1
    (List.replicate 4 0) (List.replicate 4 0) rfl rfl

/-- Claim C10 (implicit): `calc_extra_size` computes the extra size by
unsigned subtraction `serialized_sample.len() - base_size`; when the
sample serialization is shorter than `base_size` the subtraction
underflows and `new` panics instead of returning an error, so `new`
returns (rather than panics) only when the serialized length is at least
`base_size`. -/
theorem calc_extra_size_underflow_panics {α : Type} (c : Codec α)
    (alloc : String → Nat → Except String (List Nat))
    (name_base : String) (shape : Nat × Nat × Nat) (sample : List Nat)
    (hser : c.serialize (c.zeros shape) = Except.ok sample) :
    (base_size c shape ≤ sample.length →
       calc_extra_size c (base_size c shape) shape
         = some (Except.ok (sample.length - base_size c shape)))
    ∧ (calc_extra_size c (base_size c shape) shape = none
        ↔ sample.length < base_size c shape)
    ∧ (new c alloc name_base shape = none
        ↔ sample.length < base_size c shape) := by
  have hcalc : calc_extra_size c (base_size c shape) shape
      = if sample.length < base_size c shape then none
        else some (Except.ok (sample.length - base_size c shape)) := by
    simp only [calc_extra_size]
    rw [hser]
  refine ⟨?_, ?_, ?_⟩
  · intro hge
    rw [hcalc, if_neg (Nat.not_lt.mpr hge)]
  · rw [hcalc]
    by_cases hlt : sample.length < base_size c shape <;> simp [hlt]
  · simp only [new, hcalc]
    by_cases hlt : sample.length < base_size c shape
    · simp only [if_pos hlt]
      simp [hlt]
    · simp only [if_neg hlt]
      constructor
      · intro h
        rcases hab : allocBuffers alloc name_base
            (base_size c shape + (sample.length - base_size c shape)) [0, 1]
          with e | bufs <;> rw [hab] at h <;> cases h
      · intro h
        exact absurd h hlt

/-- Witness for C10: under `wideCodec` (element width 2), shape `(1,1,1)`
gives `base_size = 2` while the zero sample serializes to 1 byte, so
`calc_extra_size` underflows and `new` panics. -/
theorem calc_extra_size_underflow_panics_witness :
    calc_extra_size wideCodec (base_size wideCodec (1, 1, 1)) (1, 1, 1) = none
    ∧ new wideCodec zeroAlloc ("w") (1, 1, 1) = none := by
  have h := calc_extra_size_underflow_panics wideCodec zeroAlloc ("w") (1, 1, 1)
    (List.replicate 1 0) rfl
  exact ⟨h.2.1.mpr (by decide), h.2.2.mpr (by decide)⟩

end DbShm

namespace DbShm.Readers

/-- Helper: each interleaving step preserves the budget
`read_permits + countCodec + countFailed`. -/
theorem readStep_budget {s t : ReadSystem} (h : ReadStep s t) :
    t.read_permits + countCodec t.threads + countFailed t.threads
      = s.read_permits + countCodec s.threads + countFailed s.threads := by
  cases h with
  | acquire p rest hp =>
      simp only [countCodec, countFailed, Multiset.count_cons]
      simp
      omega
  | release p rest =>
      simp only [countCodec, countFailed, Multiset.count_cons]
      simp
      omega
  | fail p rest =>
      simp only [countCodec, countFailed, Multiset.count_cons]
      simp
      omega

/-- Helper: in every reachable state, the permit counter plus the number of
codec-phase threads plus the number of error-path returns equals the
capacity `C`. -/
theorem reachable_budget (C n : Nat) (s : ReadSystem) (h : Reachable C n s) :
    s.read_permits + countCodec s.threads + countFailed s.threads = C := by
  induction h with
  | refl =>
      simp [initSystem, countCodec, countFailed, Multiset.count_replicate]
  | tail _ hstep ih =>
      rw [readStep_budget hstep, ih]

/-- Claim C8: with read-permit capacity `C` (the source hard-codes 1), at
most `C` reader threads execute their codec step simultaneously in any
reachable interleaving; when `C` are, the permit counter is 0, so the
acquire step — which requires a nonzero counter, like the wait loop in
`acquire_read_permit` — is disabled, and a further `read()` stays blocked
until one of the `C` running readers takes its release step, which makes
the counter nonzero again. -/
theorem read_concurrency_bound (C n : Nat) (s : ReadSystem)
    (h : Reachable C n s) :
    countCodec s.threads ≤ C
    ∧ (countCodec s.threads = C → s.read_permits = 0)
    ∧ (∀ t, ReadStep s t → countCodec t.threads ≤ C)
    ∧ (∀ p rest, s = ⟨p, ReaderPhase.codec ::ₘ rest⟩ →
        ReadStep s ⟨p + 1, ReaderPhase.done ::ₘ rest⟩ ∧ p + 1 ≠ 0) := by
  have hb := reachable_budget C n s h
  refine ⟨by omega, by omega, ?_, ?_⟩
  · intro t hstep
    have hb' := reachable_budget C n t (Relation.ReflTransGen.tail h hstep)
    omega
  · intro p rest hs
    subst hs
    exact ⟨ReadStep.release p rest, by omega⟩

/-- Witness for C8 at capacity 1 with two reader threads, at the initial
state. -/
theorem read_concurrency_bound_witness :
    countCodec (initSystem 1 2).threads ≤ 1
    ∧ (countCodec (initSystem 1 2).threads = 1 → (initSystem 1 2).read_permits = 0)
    ∧ (∀ t, ReadStep (initSystem 1 2) t → countCodec t.threads ≤ 1)
    ∧ (∀ p rest, initSystem 1 2 = ⟨p, ReaderPhase.codec ::ₘ rest⟩ →
        ReadStep (initSystem 1 2) ⟨p + 1, ReaderPhase.done ::ₘ rest⟩ ∧ p + 1 ≠ 0) :=
  read_concurrency_bound 1 2 (initSystem 1 2) Relation.ReflTransGen.refl

end DbShm.Readers
